import Mathlib

/-!
# Verification of the Skeletron skeleton-graph engine

A shallow embedding of `Skeletron/__init__.py` — the skeleton pruning loop of
`polygon_skeleton`, the route extraction loop of `graph_routes`, the overtime
handler of `multiline_centerline`, and the Voronoi-engine failure path — with
theorems settling the specification claims.

Modelling conventions:
* Coordinates, edge lengths and depths are rationals (`ℚ`).  Python floats are
  modelled by exact rational arithmetic; comparisons of Euclidean distances are
  modelled by comparisons of squared distances (same order on nonnegatives).
* The `networkx` graph is an association-list graph: nodes carry id, point and
  `depth` (default 0 in the source, so a plain field here); edges carry the two
  endpoint ids and the `length` attribute (the source stores both `line` and
  `length`, with `length = line.length`, so one field suffices).
* `astar_path` with the Euclidean heuristic (admissible for the `length`
  weights of skeleton graphs) returns a minimum-weight simple path; it is
  modelled as the first minimum-weight element of a depth-first enumeration of
  simple paths.  `NetworkXNoPath` is `none`.
* The SIGALRM time limit and the unbounded `while True` loop are modelled with
  fuel: running out of fuel plays the role of the alarm firing.
* Python's stable `sorted(..., reverse=find_longest)` on `(distance, v, w)`
  tuples is modelled by a stable insertion sort under the corresponding
  lexicographic comparator.
-/

namespace Skeletron

/-- A 2-D point (shapely `Point`), as exact rationals. -/
structure Pt where
  x : ℚ
  y : ℚ
deriving DecidableEq, Repr

/-- A graph node: stable integer id, its `point` attribute, and its `depth`
attribute (`skeleton.node[i].get('depth', 0)` — default 0). -/
structure SNode where
  nid : Nat
  point : Pt
  depth : ℚ
deriving DecidableEq, Repr

/-- An undirected graph edge between node ids `ea` and `eb`, carrying the
`length` attribute. -/
structure SEdge where
  ea : Nat
  eb : Nat
  elen : ℚ
deriving DecidableEq, Repr

/-- The `networkx.Graph` used by Skeletron, as association lists. -/
structure SGraph where
  nodes : List SNode
  edges : List SEdge
deriving DecidableEq, Repr

/-- Whether edge `e` is incident to node id `i`. -/
def incident (i : Nat) (e : SEdge) : Bool :=
  e.ea == i || e.eb == i

/-- Incidence count of edge `e` at node id `i` (2 for a self-loop, as in
networkx degree counting). -/
def inc (i : Nat) (e : SEdge) : Nat :=
  (if e.ea = i then 1 else 0) + (if e.eb = i then 1 else 0)

/-- `graph.degree(i)`: total incidence of node id `i`. -/
def degree (g : SGraph) (i : Nat) : Nat :=
  (g.edges.map (inc i)).sum

/-- `graph.neighbors(i)`: the other endpoints of edges incident to `i`, in
edge-list order (modelling adjacency-dict order). -/
def neighbors (g : SGraph) (i : Nat) : List Nat :=
  g.edges.filterMap (fun e =>
    if e.ea = i then some e.eb else if e.eb = i then some e.ea else none)

/-- The list of node ids, `graph.nodes()`. -/
def nodeIds (g : SGraph) : List Nat :=
  g.nodes.map SNode.nid

/-- Look up the node record with id `i`. -/
def findNode (g : SGraph) (i : Nat) : Option SNode :=
  g.nodes.find? (fun n => n.nid == i)

/-- `graph.node[i]['point']` (default origin for a missing node; all uses in
the source are on present nodes). -/
def pointOf (g : SGraph) (i : Nat) : Pt :=
  ((findNode g i).map SNode.point).getD ⟨0, 0⟩

/-- `graph.node[i].get('depth', 0)`. -/
def depthOf (g : SGraph) (i : Nat) : ℚ :=
  ((findNode g i).map SNode.depth).getD 0

/-- The first stored edge joining `i` and `j`, in either orientation. -/
def edgeBetween (g : SGraph) (i j : Nat) : Option SEdge :=
  g.edges.find? (fun e => (e.ea == i && e.eb == j) || (e.ea == j && e.eb == i))

/-- `graph.edge[i][j]['line'].length` (equal to the `length` attribute). -/
def edgeLength (g : SGraph) (i j : Nat) : ℚ :=
  ((edgeBetween g i j).map SEdge.elen).getD 0

/-- `graph.node[i]['depth'] = d`. -/
def setDepth (g : SGraph) (i : Nat) (d : ℚ) : SGraph :=
  { g with nodes := g.nodes.map (fun n => if n.nid = i then { n with depth := d } else n) }

/-- `graph.remove_node(i)`: drop the node and all incident edges. -/
def removeNode (g : SGraph) (i : Nat) : SGraph :=
  { nodes := g.nodes.filter (fun n => n.nid != i),
    edges := g.edges.filter (fun e => !incident i e) }

/-- Well-formedness of a Skeletron graph as built by `polygon_skeleton`:
distinct node ids, every edge joining two present nodes with a nonnegative
length, and nonnegative depths. -/
def WfG (g : SGraph) : Prop :=
  (nodeIds g).Nodup ∧
  (∀ e ∈ g.edges, e.ea ∈ nodeIds g ∧ e.eb ∈ nodeIds g ∧ 0 ≤ e.elen) ∧
  (∀ n ∈ g.nodes, 0 ≤ n.depth)

instance (g : SGraph) : Decidable (WfG g) := by
  unfold WfG; infer_instance

/-! ## The pruning loop of `polygon_skeleton` (source lines 312–324) -/

/-- One iteration of the inner `for index in skeleton.nodes()` body: if node
`i` currently has degree 1 and its own depth is below the cutoff 20, set the
single neighbor's depth to `depth + edge length` (an overwriting assignment in
the source) and delete the node; return the new graph and whether a removal
happened. -/
def pruneVisit (g : SGraph) (i : Nat) : SGraph × Bool :=
  if degree g i = 1 then
    if depthOf g i < 20 then
      match neighbors g i with
      | [] => (g, false)
      | o :: _ =>
        (removeNode (setDepth g o (depthOf g i + edgeLength g i o)) i, true)
    else (g, false)
  else (g, false)

/-- Fold of `pruneVisit` over the snapshot of node ids taken at scan start,
accumulating the `removing` flag. -/
def pruneScanAux : List Nat → SGraph → Bool → SGraph × Bool
  | [], g, r => (g, r)
  | i :: rest, g, r =>
    pruneScanAux rest (pruneVisit g i).1 (r || (pruneVisit g i).2)

/-- One full scan of the `while removing` loop body. -/
def pruneScan (g : SGraph) : SGraph × Bool :=
  pruneScanAux (nodeIds g) g false

/-- The `while removing` loop, with fuel (each productive scan removes at
least one node, so `g.nodes.length + 1` scans reach the fixed point). -/
def pruneLoop : Nat → SGraph → SGraph
  | 0, g => g
  | fuel + 1, g =>
    if (pruneScan g).2 then pruneLoop fuel (pruneScan g).1 else (pruneScan g).1

/-- The pruning phase of `polygon_skeleton`, run to its fixed point. -/
def pruneGraph (g : SGraph) : SGraph :=
  pruneLoop (g.nodes.length + 1) g

/-- Total edge length of the graph. -/
def totalLen (g : SGraph) : ℚ :=
  (g.edges.map SEdge.elen).sum

/-- Total depth accumulated in the graph's nodes. -/
def totalDepth (g : SGraph) : ℚ :=
  (g.nodes.map SNode.depth).sum

/-- The endpoint of `e` other than `i` (for an edge with exactly one endpoint
equal to `i`). -/
def otherEnd (i : Nat) (e : SEdge) : Nat :=
  if e.ea = i then e.eb else e.ea

/-! ## Route extraction: `graph_routes` (source lines 147–233)

`graph_routes(graph, find_longest)` clones the input graph, then repeatedly:
breaks when the clone has no edges; collects the degree-1 leaves (adding
degree-3 nodes when there is exactly one leaf or `find_longest` is false, and
falling back to `[deg-2 node, its first neighbor]` when there are none, an
unguarded `[0]` index); sorts all leaf pairs by the straight-line distance of
their points (descending when `find_longest`); and records the first pair's
A*-path, removing its edges from the clone.  The state carries the caller's
graph alongside the clone so that the embedding records which object each
operation mutates. -/

/-- Squared Euclidean distance between two points.  The source sorts and
tie-breaks on `Point.distance` (the square root); sorting on the square is
order-equivalent for nonnegative distances. -/
def dist2 (p q : Pt) : ℚ :=
  (p.x - q.x) * (p.x - q.x) + (p.y - q.y) * (p.y - q.y)

/-- `itertools.combinations(l, 2)` in the same order. -/
def combinations2 : List Nat → List (Nat × Nat)
  | [] => []
  | x :: xs => xs.map (fun y => (x, y)) ++ combinations2 xs

/-- Lexicographic comparison of Python `(distance, v, w)` sort keys (with the
squared distance in the first slot). -/
def tripLe (a b : ℚ × Nat × Nat) : Bool :=
  decide (a.1 < b.1 ∨ (a.1 = b.1 ∧ (a.2.1 < b.2.1 ∨ (a.2.1 = b.2.1 ∧ a.2.2 ≤ b.2.2))))

/-- Reversed comparison, for `sorted(..., reverse=True)`. -/
def tripGe (a b : ℚ × Nat × Nat) : Bool :=
  tripLe b a

/-- Stable insertion of `x` into a sorted list (before the first element it
compares `le` to). -/
def insertBy {α : Type} (le : α → α → Bool) (x : α) : List α → List α
  | [] => [x]
  | y :: ys => if le x y then x :: y :: ys else y :: insertBy le x ys

/-- Stable insertion sort, modelling Python's stable `sorted`. -/
def sortBy {α : Type} (le : α → α → Bool) : List α → List α
  | [] => []
  | x :: xs => insertBy le x (sortBy le xs)

/-- All simple paths from `cur` to `target` avoiding `visited`, by depth-first
enumeration with fuel (a path of `k` nodes needs fuel `≥ k`). -/
def pathsFrom (g : SGraph) : Nat → Nat → Nat → List Nat → List (List Nat)
  | 0, _, _, _ => []
  | fuel + 1, cur, target, visited =>
    if cur = target then [[cur]]
    else
      ((neighbors g cur).filter (fun n => !(visited.contains n))).flatMap
        (fun nb => (pathsFrom g fuel nb target (nb :: visited)).map (fun p => cur :: p))

/-- Total path weight: the edge `length` attributes when `useLen` (the
`find_longest` weighting), else 1 per edge (`weight=None`, hop count). -/
def pathWeight (useLen : Bool) (g : SGraph) (p : List Nat) : ℚ :=
  ((p.zip p.tail).map (fun vw => if useLen then edgeLength g vw.1 vw.2 else 1)).sum

/-- First minimum of `f` over a list. -/
def pickFirstMinBy {α : Type} (f : α → ℚ) : List α → Option α
  | [] => none
  | x :: xs => some (xs.foldl (fun best y => if f y < f best then y else best) x)

/-- `networkx astar_path(graph, v, w, heuristic, weight)`: with the (admissible,
consistent) Euclidean heuristic it returns a minimum-weight simple path, or
raises `NetworkXNoPath` (`none`) when `w` is unreachable from `v`.  Modelled as
the first minimum-weight simple path in depth-first enumeration order. -/
def astar_path (useLen : Bool) (g : SGraph) (v w : Nat) : Option (List Nat) :=
  pickFirstMinBy (pathWeight useLen g) (pathsFrom g g.nodes.length v w [v])

/-- The extraction state: the caller's graph object (`graph`), the working
clone (`_graph = graph.copy()`), and the routes recorded so far (as node-index
paths; the emitted coordinate lists are their pointwise images). -/
structure RState where
  orig : SGraph
  clone : SGraph
  routes : List (List Nat)
deriving DecidableEq, Repr

/-- How a `graph_routes` run can fail: the SIGALRM firing (out of fuel), or the
unguarded `[0]` on an empty candidate list (an uncaught `IndexError`).  Both
carry the state reached, for stating frame properties. -/
inductive RErr where
  | outOfFuel (s : RState)
  | indexError (s : RState)
deriving DecidableEq, Repr

/-- Candidate selection of one loop iteration (source lines 198–208): degree-1
leaves; plus degree-3 nodes when there is exactly one leaf or `find_longest` is
false; on an empty list, an arbitrary degree-2 node and its first neighbor
(`none` models the uncaught `IndexError` of `[...][0]` on an empty list). -/
def leafCandidates (fl : Bool) (g : SGraph) : List Nat :=
  if ((nodeIds g).filter (fun i => degree g i == 1)).length == 1 || !fl then
    (nodeIds g).filter (fun i => degree g i == 1)
      ++ (nodeIds g).filter (fun i => degree g i == 3)
  else
    (nodeIds g).filter (fun i => degree g i == 1)

def selectLeaves (fl : Bool) (g : SGraph) : Option (List Nat) :=
  if (leafCandidates fl g).length == 0 then
    match (nodeIds g).filter (fun i => degree g i == 2) with
    | [] => none
    | n :: _ =>
      match neighbors g n with
      | [] => none
      | m :: _ => some [n, m]
  else some (leafCandidates fl g)

/-- The sorted candidate-pair list of one iteration (source lines 210–213):
all unordered pairs with their point distances, sorted descending when
`find_longest` else ascending (stably, tie-broken on the node ids as Python's
tuple comparison does). -/
def pairDists (g : SGraph) (leaves : List Nat) : List (ℚ × Nat × Nat) :=
  (combinations2 leaves).map
    (fun vw => (dist2 (pointOf g vw.1) (pointOf g vw.2), vw.1, vw.2))

def sortedPairs (fl : Bool) (g : SGraph) (leaves : List Nat) : List (ℚ × Nat × Nat) :=
  if fl then sortBy tripGe (pairDists g leaves) else sortBy tripLe (pairDists g leaves)

/-- The `for (distance, v, w) in sorted(...)` loop (source lines 213–218): the
first pair admitting a path, with its path. -/
def firstPathTr (useLen : Bool) (g : SGraph) :
    List (ℚ × Nat × Nat) → Option ((ℚ × Nat × Nat) × List Nat)
  | [] => none
  | t :: rest =>
    match astar_path useLen g t.2.1 t.2.2 with
    | some p => some (t, p)
    | none => firstPathTr useLen g rest

/-- `graph.remove_edge(v, w)`. -/
def removeEdgePair (g : SGraph) (v w : Nat) : SGraph :=
  { g with edges := g.edges.filter (fun e =>
      !((e.ea == v && e.eb == w) || (e.ea == w && e.eb == v))) }

/-- Removal of every edge traversed by a recorded path (source lines 220–221). -/
def removeRouteEdges (g : SGraph) (p : List Nat) : SGraph :=
  (p.zip p.tail).foldl (fun h vw => removeEdgePair h vw.1 vw.2) g

/-- One iteration of the `while True` body, after the edge check: candidate
selection, pair sorting, path search, edge removal and route recording.  When
every pair yields no path the body falls through with the state unchanged (the
`for` loop ends without `break` and the `while` re-enters). -/
def routeStepGo (fl : Bool) (s : RState) (leaves : List Nat) : Except RErr RState :=
  match firstPathTr fl s.clone (sortedPairs fl s.clone leaves) with
  | none => .ok s
  | some (_, p) =>
    .ok { s with clone := removeRouteEdges s.clone p, routes := s.routes ++ [p] }

/-- One iteration of the `while True` body, after the edge check: candidate
selection, then `routeStepGo`. -/
def routeStep (fl : Bool) (s : RState) : Except RErr RState :=
  match selectLeaves fl s.clone with
  | none => .error (.indexError s)
  | some leaves => routeStepGo fl s leaves

/-- The `while True` loop with fuel; running out of fuel models the SIGALRM
aborting the run. -/
def graph_routes_loop (fl : Bool) : Nat → RState → Except RErr RState
  | 0, s => .error (.outOfFuel s)
  | fuel + 1, s =>
    if s.clone.edges.isEmpty then .ok s
    else
      match routeStep fl s with
      | .error e => .error e
      | .ok s' => graph_routes_loop fl fuel s'

/-- The initial state: the clone `_graph = graph.copy()` starts as a copy of
the caller's graph, and no routes are recorded. -/
def initState (g : SGraph) : RState :=
  ⟨g, g, []⟩

/-- `graph_routes(graph, find_longest)` under a fuel budget. -/
def graph_routes (g : SGraph) (fl : Bool) (fuel : Nat) : Except RErr RState :=
  graph_routes_loop fl fuel (initState g)

deriving instance DecidableEq for Except

/-- The state a run ends in, wherever it ends. -/
def resultState : Except RErr RState → RState
  | .ok s => s
  | .error (.outOfFuel s) => s
  | .error (.indexError s) => s

/-- The coordinate pairs emitted for a route (source lines 223–224; node
points are unchanged by edge removal). -/
def routeCoords (g : SGraph) (p : List Nat) : List (ℚ × ℚ) :=
  p.map (fun i => ((pointOf g i).x, (pointOf g i).y))

/-- `time_limit = int(ceil(time_coefficient * graph.number_of_nodes()))` with
the default coefficient `0.02 = 1/50`; `signal.alarm(time_limit)` — and
`signal.alarm(0)` cancels any pending alarm rather than firing one. -/
def time_limit (g : SGraph) : Nat :=
  (⌈(1 / 50 : ℚ) * (g.nodes.length : ℚ)⌉).toNat

/-- `_GraphRoutesOvertime(graph)`: the exception `multiline_centerline` raises
when `graph_routes` went overtime; its payload is whatever graph object the
handler passes it. -/
structure GraphRoutesOvertime where
  graph : SGraph
deriving DecidableEq, Repr

/-- The outcomes of the `skeleton_routes` call inside `multiline_centerline`
(source lines 124–129): normal routes; `_GraphRoutesOvertime` raised on a
`_SignalAlarm`; or an uncaught exception (the `IndexError` path). -/
inductive CenterlineOutcome where
  | routesOk (routes : List (List Nat))
  | overtime (e : GraphRoutesOvertime)
  | indexCrash
deriving DecidableEq, Repr

/-- The `try: routes = skeleton_routes(skeleton, ...) except _SignalAlarm:
raise _GraphRoutesOvertime(skeleton)` block of `multiline_centerline`: on an
alarm the raised exception wraps `skeleton` — the graph that was passed in —
while the extractor's local clone is discarded with the aborted call. -/
def multiline_centerline_extract (skeleton : SGraph) (fuel : Nat) : CenterlineOutcome :=
  match graph_routes skeleton true fuel with
  | .ok s => .routesOk s.routes
  | .error (.outOfFuel _) => .overtime ⟨skeleton⟩
  | .error (.indexError _) => .indexCrash

/-! ## The Voronoi engine failure of `polygon_skeleton` (source lines 288–293) -/

/-- `_QHullFailure`: its only payload is the exception message string. -/
structure QHullFailure where
  msg : String
deriving DecidableEq, Repr

/-- A buffer polygon (outer ring and holes), as passed to `polygon_skeleton`. -/
structure Polygon where
  rings : List (List Pt)
deriving DecidableEq, Repr

/-- What the external `qvoronoi` process run produces: output lines and an
exit status. -/
structure VoronoiResult where
  outputLines : List String
  returncode : Int
deriving DecidableEq, Repr

/-- The engine-failure check of `polygon_skeleton`: on a nonzero exit status,
raise `_QHullFailure('Failed with code %s' % returncode)`; else hand the output
lines on to the Voronoi parsing stage.  `polygon` and `density` are the
arguments in scope at the raise site (they are logged by the caller, not
attached to the exception). -/
def qvoronoi_check (polygon : Polygon) (density : ℚ) (res : VoronoiResult) :
    Except QHullFailure (List String) :=
  if res.returncode ≠ 0 then
    .error ⟨"Failed with code " ++ toString res.returncode⟩
  else
    .ok res.outputLines

/-! ## Claim-level predicates -/

/-- The unordered edge pairs a route traverses (`zip(indexes[:-1], indexes[1:])`). -/
def routeEdgePairs (p : List Nat) : List (Nat × Nat) :=
  p.zip p.tail

/-- Two traversed pairs denote the same undirected edge. -/
def sameUedge (a b : Nat × Nat) : Prop :=
  a = b ∨ (a.1 = b.2 ∧ a.2 = b.1)

/-- No graph edge is traversed by both routes. -/
def EdgeDisjoint (p q : List Nat) : Prop :=
  ∀ a ∈ routeEdgePairs p, ∀ b ∈ routeEdgePairs q, ¬ sameUedge a b

/-- The emitted routes are pairwise edge-disjoint. -/
def RoutesDisjoint (rs : List (List Nat)) : Prop :=
  rs.Pairwise EdgeDisjoint

/-- Whether the graph holds an edge between `v` and `w` (either orientation). -/
def isEdgeB (g : SGraph) (v w : Nat) : Bool :=
  g.edges.any (fun e => (e.ea == v && e.eb == w) || (e.ea == w && e.eb == v))

/-- `graph_routes(g, find_longest=True)` never returns, whatever the budget:
the model of the `while True` loop spinning until the alarm kills it. -/
def loopsForever (g : SGraph) : Prop :=
  ∀ fuel s, graph_routes g true fuel ≠ Except.ok s

/-- The extraction invariant: recorded routes are pairwise edge-disjoint, and
every edge any recorded route traversed is gone from the working clone. -/
def RInv (s : RState) : Prop :=
  RoutesDisjoint s.routes ∧
  ∀ r ∈ s.routes, ∀ a ∈ routeEdgePairs r, isEdgeB s.clone a.1 a.2 = false

/-! ## Concrete graphs for counterexamples and witnesses -/

/-- A node with depth 0, as `polygon_skeleton` creates them. -/
def mkNode (i : Nat) (x y : ℚ) : SNode :=
  ⟨i, ⟨x, y⟩, 0⟩

/-- A star: center node 0 with three spurs of lengths 3, 5 and 7 (each equal
to the point distance). -/
def starG : SGraph :=
  ⟨[mkNode 0 0 0, mkNode 1 3 0, mkNode 2 0 5, mkNode 3 (-7) 0],
   [⟨0, 1, 3⟩, ⟨0, 2, 5⟩, ⟨0, 3, 7⟩]⟩

/-- A chain of four nodes with edges of length 25 (above the depth cutoff). -/
def chainG : SGraph :=
  ⟨[mkNode 0 0 0, mkNode 1 25 0, mkNode 2 50 0, mkNode 3 75 0],
   [⟨0, 1, 25⟩, ⟨1, 2, 25⟩, ⟨2, 3, 25⟩]⟩

/-- Two disjoint "lollipops" (a triangle with a tail): the only degree-1
leaves, 0 and 4, lie in different components, so the single candidate pair
never admits a path. -/
def lollipopG : SGraph :=
  ⟨[mkNode 0 0 0, mkNode 1 1 0, mkNode 2 2 0, mkNode 3 2 1,
    mkNode 4 0 10, mkNode 5 1 10, mkNode 6 2 10, mkNode 7 2 11],
   [⟨0, 1, 1⟩, ⟨1, 2, 1⟩, ⟨2, 3, 1⟩, ⟨3, 1, 2⟩,
    ⟨4, 5, 1⟩, ⟨5, 6, 1⟩, ⟨6, 7, 1⟩, ⟨7, 5, 2⟩]⟩

/-- A three-node path. -/
def pathG : SGraph :=
  ⟨[mkNode 0 0 0, mkNode 1 1 0, mkNode 2 2 0], [⟨0, 1, 1⟩, ⟨1, 2, 1⟩]⟩

/-- `pathG` with both edges consumed: the clone after its one route. -/
def pathGstripped : SGraph :=
  ⟨pathG.nodes, []⟩

/-- Two components whose leaf pairs invert the length order: a straight path
0–1–2 of length 6 whose endpoints are 6 apart, and a bent path 3–4–5 of
length 13 whose endpoints are only 5 apart.  All edge lengths equal the
distances of their endpoint points. -/
def xG : SGraph :=
  ⟨[mkNode 0 0 0, mkNode 1 3 0, mkNode 2 6 0,
    mkNode 3 0 2, mkNode 4 (5 / 2) 8, mkNode 5 5 2],
   [⟨0, 1, 3⟩, ⟨1, 2, 3⟩, ⟨3, 4, 13 / 2⟩, ⟨4, 5, 13 / 2⟩]⟩

/-- A complete graph on 4 nodes: every degree is 3, so route extraction finds
no degree-1, applicable degree-3, or degree-2 candidates. -/
def k4G : SGraph :=
  ⟨[mkNode 0 0 0, mkNode 1 1 0, mkNode 2 0 1, mkNode 3 1 1],
   [⟨0, 1, 1⟩, ⟨0, 2, 1⟩, ⟨0, 3, 2⟩, ⟨1, 2, 2⟩, ⟨1, 3, 1⟩, ⟨2, 3, 1⟩]⟩

/-- The empty graph: the only graph whose time limit rounds to 0 seconds. -/
def emptyG : SGraph :=
  ⟨[], []⟩

/-- A small triangle polygon. -/
def polyA : Polygon :=
  ⟨[[⟨0, 0⟩, ⟨1, 0⟩, ⟨1, 1⟩]]⟩

/-- A different triangle polygon. -/
def polyB : Polygon :=
  ⟨[[⟨0, 0⟩, ⟨2, 0⟩, ⟨2, 2⟩]]⟩

/-- A failed engine run: exit status 1, no output. -/
def vorFail : VoronoiResult :=
  ⟨[], 1⟩

/-! ## Structure of a degree-1 node -/

lemma inc_eq_zero {i : Nat} {e : SEdge} : inc i e = 0 ↔ (e.ea ≠ i ∧ e.eb ≠ i) := by
  unfold inc
  split <;> split <;> simp_all

lemma incident_false_of_inc_zero {i : Nat} {e : SEdge} (h : inc i e = 0) :
    incident i e = false := by
  rcases inc_eq_zero.mp h with ⟨h1, h2⟩
  simp [incident, h1, h2]

lemma inc_one_cases {i : Nat} {e : SEdge} (h : inc i e = 1) :
    (e.ea = i ∧ e.eb ≠ i) ∨ (e.ea ≠ i ∧ e.eb = i) := by
  unfold inc at h
  split at h <;> split at h <;> simp_all

/-- A list of edges with total incidence 1 at `i` splits around a unique
incident edge. -/
lemma deg1_decomp : ∀ (l : List SEdge) (i : Nat), (l.map (inc i)).sum = 1 →
    ∃ l₁ e l₂, l = l₁ ++ e :: l₂ ∧ inc i e = 1 ∧
      (∀ f ∈ l₁, inc i f = 0) ∧ (∀ f ∈ l₂, inc i f = 0)
  | [], i, h => by simp at h
  | e :: rest, i, h => by
    rw [List.map_cons, List.sum_cons] at h
    rcases Nat.eq_zero_or_pos (inc i e) with h0 | hpos
    · rcases deg1_decomp rest i (by omega) with ⟨l₁, e', l₂, rfl, he', hl₁, hl₂⟩
      exact ⟨e :: l₁, e', l₂, rfl, he', by
        intro f hf
        rcases List.mem_cons.mp hf with rfl | hf
        · exact h0
        · exact hl₁ f hf, hl₂⟩
    · have he : inc i e = 1 := by omega
      have hrest : (rest.map (inc i)).sum = 0 := by omega
      refine ⟨[], e, rest, rfl, he, by simp, ?_⟩
      intro f hf
      have := List.sum_eq_zero_iff.mp hrest (inc i f) (List.mem_map_of_mem (inc i) hf)
      exact this

/-- All the structure the pruner reads off a degree-1 node: the unique
incident edge, the single neighbor, the edge lookup, and the edge-removal
length accounting. -/
lemma degree_one_structure (g : SGraph) (i : Nat) (h : degree g i = 1) :
    ∃ e, e ∈ g.edges ∧ inc i e = 1 ∧ otherEnd i e ≠ i ∧
      neighbors g i = [otherEnd i e] ∧
      edgeBetween g i (otherEnd i e) = some e ∧
      ((g.edges.filter (fun f => !incident i f)).map SEdge.elen).sum
        = totalLen g - e.elen := by
  rcases deg1_decomp g.edges i h with ⟨l₁, e, l₂, hsplit, he, hl₁, hl₂⟩
  have hne : otherEnd i e ≠ i ∧
      (if e.ea = i then some e.eb else if e.eb = i then some e.ea else none)
        = some (otherEnd i e) ∧
      ((e.ea == i && e.eb == otherEnd i e) || (e.ea == otherEnd i e && e.eb == i))
        = true := by
    rcases inc_one_cases he with ⟨h1, h2⟩ | ⟨h1, h2⟩ <;>
      simp [otherEnd, h1, h2]
  refine ⟨e, by rw [hsplit]; simp, he, hne.1, ?_, ?_, ?_⟩
  · -- neighbors
    unfold neighbors
    rw [hsplit, List.filterMap_append, List.filterMap_cons]
    have hskip : ∀ l : List SEdge, (∀ f ∈ l, inc i f = 0) →
        l.filterMap (fun e =>
          if e.ea = i then some e.eb else if e.eb = i then some e.ea else none) = [] := by
      intro l hl
      induction l with
      | nil => rfl
      | cons f rest ih =>
        rcases inc_eq_zero.mp (hl f (by simp)) with ⟨h1, h2⟩
        have hrest := ih (fun f hf => hl f (by simp [hf]))
        simp [List.filterMap_cons, h1, h2, hrest]
    rw [hskip l₁ hl₁, hskip l₂ hl₂, hne.2.1]
    simp
  · -- edgeBetween
    unfold edgeBetween
    rw [hsplit, List.find?_append]
    have hskip : l₁.find? (fun f => (f.ea == i && f.eb == otherEnd i e)
        || (f.ea == otherEnd i e && f.eb == i)) = none := by
      rw [List.find?_eq_none]
      intro f hf
      rcases inc_eq_zero.mp (hl₁ f hf) with ⟨h1, h2⟩
      have h1' : (f.ea == i) = false := by simp [h1]
      have h3 : (f.eb == i) = false := by simp [h2]
      simp [h1', h3]
    rw [hskip, List.find?_cons, hne.2.2]
    simp
  · -- length accounting
    unfold totalLen
    rw [hsplit]
    have hinc : incident i e = true := by
      rcases inc_one_cases he with ⟨h1, h2⟩ | ⟨h1, h2⟩ <;> simp [incident, h1, h2]
    have hk1 : ∀ f ∈ l₁, (!incident i f) = true := by
      intro f hf; rw [incident_false_of_inc_zero (hl₁ f hf)]; rfl
    have hk2 : ∀ f ∈ l₂, (!incident i f) = true := by
      intro f hf; rw [incident_false_of_inc_zero (hl₂ f hf)]; rfl
    have hdrop : (e :: l₂).filter (fun f => !incident i f)
        = l₂.filter (fun f => !incident i f) := by
      simp [List.filter_cons, hinc]
    rw [List.filter_append, hdrop, List.filter_eq_self.mpr hk1,
      List.filter_eq_self.mpr hk2]
    simp only [List.map_append, List.sum_append, List.map_cons, List.sum_cons]
    ring

/-! ## Accounting for depth updates and node removal -/

lemma find?_of_mem_nid {l : List SNode} {o : Nat} (h : o ∈ l.map SNode.nid) :
    ∃ n, l.find? (fun x => x.nid == o) = some n ∧ n.nid = o := by
  induction l with
  | nil => simp at h
  | cons m rest ih =>
    by_cases hm : m.nid = o
    · exact ⟨m, by rw [List.find?_cons_of_pos _ (by simp [hm])], hm⟩
    · rcases List.mem_map.mp h with ⟨n, hn, hno⟩
      rcases List.mem_cons.mp hn with rfl | hn'
      · exact absurd hno hm
      · rcases ih (by rw [← hno]; exact List.mem_map_of_mem _ hn') with ⟨n', hfind, hn'o⟩
        exact ⟨n', by rw [List.find?_cons_of_neg _ (by simp [hm]), hfind], hn'o⟩

lemma upd_nochange {o : Nat} {v : ℚ} : ∀ (l : List SNode), (∀ n ∈ l, n.nid ≠ o) →
    l.map (fun n => if n.nid = o then { n with depth := v } else n) = l
  | [], _ => rfl
  | n :: rest, h => by
    rw [List.map_cons, if_neg (h n (by simp)),
      upd_nochange rest (fun m hm => h m (by simp [hm]))]

lemma depthSum_upd {o : Nat} {v : ℚ} :
    ∀ (l : List SNode), (l.map SNode.nid).Nodup → o ∈ l.map SNode.nid →
    ((l.map (fun n => if n.nid = o then { n with depth := v } else n)).map SNode.depth).sum
      = (l.map SNode.depth).sum
        - (((l.find? (fun x => x.nid == o)).map SNode.depth).getD 0) + v
  | [], _, h => by simp at h
  | n :: rest, hnd, h => by
    have hnd' : n.nid ∉ rest.map SNode.nid ∧ (rest.map SNode.nid).Nodup :=
      List.nodup_cons.mp (by simpa using hnd)
    rw [List.map_cons]
    by_cases hn : n.nid = o
    · have hrest : ∀ m ∈ rest, m.nid ≠ o := by
        intro m hm heq
        exact hnd'.1 (by rw [hn, ← heq]; exact List.mem_map_of_mem _ hm)
      rw [if_pos hn, upd_nochange rest hrest,
        List.find?_cons_of_pos _ (by simp [hn])]
      simp only [List.map_cons, List.sum_cons]
      simp
      ring
    · have h' : o ∈ rest.map SNode.nid := by
        rcases (by simpa using h : o = n.nid ∨ ∃ a ∈ rest, a.nid = o) with heq | ⟨a, ha, hao⟩
        · exact absurd heq.symm hn
        · rw [← hao]; exact List.mem_map_of_mem _ ha
      rw [if_neg hn, List.find?_cons_of_neg _ (by simp [hn])]
      simp only [List.map_cons, List.sum_cons]
      rw [depthSum_upd rest hnd'.2 h']
      ring

lemma depthSum_remove {i : Nat} :
    ∀ (l : List SNode), (l.map SNode.nid).Nodup → i ∈ l.map SNode.nid →
    ((l.filter (fun n => n.nid != i)).map SNode.depth).sum
      = (l.map SNode.depth).sum
        - (((l.find? (fun x => x.nid == i)).map SNode.depth).getD 0)
  | [], _, h => by simp at h
  | n :: rest, hnd, h => by
    have hnd' : n.nid ∉ rest.map SNode.nid ∧ (rest.map SNode.nid).Nodup :=
      List.nodup_cons.mp (by simpa using hnd)
    by_cases hn : n.nid = i
    · have hrest : ∀ m ∈ rest, (m.nid != i) = true := by
        intro m hm
        have hne : m.nid ≠ i := by
          intro heq
          exact hnd'.1 (by rw [hn, ← heq]; exact List.mem_map_of_mem _ hm)
        simp [hne]
      rw [List.filter_cons_of_neg (by simp [hn]), List.filter_eq_self.mpr hrest,
        List.find?_cons_of_pos _ (by simp [hn])]
      simp only [List.map_cons, List.sum_cons]
      simp
    · have h' : i ∈ rest.map SNode.nid := by
        rcases (by simpa using h : i = n.nid ∨ ∃ a ∈ rest, a.nid = i) with heq | ⟨a, ha, hai⟩
        · exact absurd heq.symm hn
        · rw [← hai]; exact List.mem_map_of_mem _ ha
      rw [List.filter_cons_of_pos (by simp [hn]), List.find?_cons_of_neg _ (by simp [hn])]
      simp only [List.map_cons, List.sum_cons]
      rw [depthSum_remove rest hnd'.2 h']
      ring

lemma nodeIds_setDepth (g : SGraph) (o : Nat) (v : ℚ) :
    nodeIds (setDepth g o v) = nodeIds g := by
  unfold nodeIds setDepth
  rw [List.map_map]
  congr 1
  funext n
  by_cases hn : n.nid = o <;> simp [hn]

lemma edges_setDepth (g : SGraph) (o : Nat) (v : ℚ) :
    (setDepth g o v).edges = g.edges := rfl

lemma totalDepth_setDepth (g : SGraph) (o : Nat) (v : ℚ)
    (hnd : (nodeIds g).Nodup) (hmem : o ∈ nodeIds g) :
    totalDepth (setDepth g o v) = totalDepth g - depthOf g o + v :=
  depthSum_upd g.nodes hnd hmem

lemma totalDepth_removeNode (g : SGraph) (i : Nat)
    (hnd : (nodeIds g).Nodup) (hmem : i ∈ nodeIds g) :
    totalDepth (removeNode g i) = totalDepth g - depthOf g i :=
  depthSum_remove g.nodes hnd hmem

lemma find?_upd_ne {o i : Nat} {v : ℚ} (hne : i ≠ o) : ∀ (l : List SNode),
    (l.map (fun n => if n.nid = o then { n with depth := v } else n)).find?
        (fun x => x.nid == i)
      = l.find? (fun x => x.nid == i)
  | [] => rfl
  | n :: rest => by
    rw [List.map_cons]
    by_cases hn : n.nid = i
    · have hno : ¬ n.nid = o := fun h => hne (hn ▸ h)
      rw [if_neg hno, List.find?_cons_of_pos _ (by simp [hn]),
        List.find?_cons_of_pos _ (by simp [hn])]
    · by_cases hno : n.nid = o
      · rw [if_pos hno, List.find?_cons_of_neg _ (by simp; exact fun h => hn h),
          List.find?_cons_of_neg _ (by simp [hn]), find?_upd_ne hne rest]
      · rw [if_neg hno, List.find?_cons_of_neg _ (by simp [hn]),
          List.find?_cons_of_neg _ (by simp [hn]), find?_upd_ne hne rest]

lemma depthOf_setDepth_ne (g : SGraph) (o i : Nat) (v : ℚ) (hne : i ≠ o) :
    depthOf (setDepth g o v) i = depthOf g i := by
  unfold depthOf findNode setDepth
  rw [find?_upd_ne hne g.nodes]

lemma depthOf_nonneg (g : SGraph) (hdep : ∀ n ∈ g.nodes, 0 ≤ n.depth) (i : Nat) :
    0 ≤ depthOf g i := by
  unfold depthOf findNode
  rcases hf : g.nodes.find? (fun n => n.nid == i) with _ | n
  · rw [hf]; simp
  · rw [hf]; simpa using hdep n (List.mem_of_find?_eq_some hf)

lemma endpoint_mem_of_inc_one {g : SGraph} {e : SEdge} {i : Nat}
    (hw : WfG g) (hmem : e ∈ g.edges) (h1 : inc i e = 1) :
    i ∈ nodeIds g ∧ otherEnd i e ∈ nodeIds g := by
  obtain ⟨hea, heb, _⟩ := hw.2.1 e hmem
  rcases inc_one_cases h1 with ⟨ha, hb⟩ | ⟨ha, hb⟩
  · exact ⟨ha ▸ hea, by simpa [otherEnd, ha] using heb⟩
  · exact ⟨hb ▸ heb, by simpa [otherEnd, ha] using hea⟩

lemma nodeIds_removeNode_sublist (g : SGraph) (i : Nat) :
    List.Sublist (nodeIds (removeNode g i)) (nodeIds g) :=
  (List.filter_sublist _).map _

lemma mem_nodeIds_removeNode {g : SGraph} {j i : Nat}
    (hj : j ∈ nodeIds g) (hne : j ≠ i) : j ∈ nodeIds (removeNode g i) := by
  rcases List.mem_map.mp hj with ⟨n, hn, rfl⟩
  exact List.mem_map_of_mem _ (List.mem_filter.mpr ⟨hn, by simp [hne]⟩)

lemma filter_length_lt {α : Type} {p : α → Bool} :
    ∀ (l : List α), (∃ a ∈ l, p a = false) → (l.filter p).length < l.length
  | [], h => by simp at h
  | x :: rest, h => by
    rcases h with ⟨a, ha, hpa⟩
    rcases List.mem_cons.mp ha with rfl | ha'
    · rw [List.filter_cons_of_neg (by simp [hpa])]
      exact Nat.lt_succ_of_le (List.length_filter_le _ _)
    · rw [List.filter_cons]
      split
      · simpa using filter_length_lt rest ⟨a, ha', hpa⟩
      · exact Nat.lt_succ_of_lt (filter_length_lt rest ⟨a, ha', hpa⟩)

/-! ## Behaviour of a single prune visit -/

lemma pruneVisit_false_eq (g : SGraph) (i : Nat)
    (h : (pruneVisit g i).2 = false) : (pruneVisit g i).1 = g := by
  unfold pruneVisit at h ⊢
  by_cases h1 : degree g i = 1
  · rw [if_pos h1] at h ⊢
    by_cases h2 : depthOf g i < 20
    · rw [if_pos h2] at h ⊢
      rcases hne : neighbors g i with _ | ⟨o, rest⟩
      · rfl
      · rw [hne] at h; exact Bool.noConfusion h
    · rw [if_neg h2]
  · rw [if_neg h1]

lemma pruneVisit_true_result (g : SGraph) (i : Nat)
    (h : (pruneVisit g i).2 = true) :
    degree g i = 1 ∧ depthOf g i < 20 ∧ ∃ o rest, neighbors g i = o :: rest ∧
      (pruneVisit g i).1
        = removeNode (setDepth g o (depthOf g i + edgeLength g i o)) i := by
  unfold pruneVisit at h ⊢
  by_cases h1 : degree g i = 1
  · rw [if_pos h1] at h ⊢
    by_cases h2 : depthOf g i < 20
    · rw [if_pos h2] at h ⊢
      rcases hne : neighbors g i with _ | ⟨o, rest⟩
      · rw [hne] at h; exact Bool.noConfusion h
      · rw [hne] at h; exact ⟨h1, h2, o, rest, rfl, rfl⟩
    · rw [if_neg h2] at h; simp at h
  · rw [if_neg h1] at h; simp at h

/-! ## Measure and well-formedness of a prune visit -/

lemma edgeLength_eq_of_between {g : SGraph} {i o : Nat} {e : SEdge}
    (h : edgeBetween g i o = some e) : edgeLength g i o = e.elen := by
  unfold edgeLength
  rw [h]
  rfl

lemma pruneVisit_true_parts (g : SGraph) (i : Nat)
    (h : (pruneVisit g i).2 = true) :
    ∃ e, e ∈ g.edges ∧ inc i e = 1 ∧ otherEnd i e ≠ i ∧
      degree g i = 1 ∧ depthOf g i < 20 ∧
      edgeBetween g i (otherEnd i e) = some e ∧
      ((g.edges.filter (fun f => !incident i f)).map SEdge.elen).sum
        = totalLen g - e.elen ∧
      (pruneVisit g i).1
        = removeNode (setDepth g (otherEnd i e)
            (depthOf g i + edgeLength g i (otherEnd i e))) i := by
  obtain ⟨h1, h2, o, rest, hne, hres⟩ := pruneVisit_true_result g i h
  obtain ⟨e, hmem, hinc1, honei, hnbr, hbetween, hsum⟩ := degree_one_structure g i h1
  rw [hnbr] at hne
  injection hne with h3 h4
  subst h3
  exact ⟨e, hmem, hinc1, honei, h1, h2, hbetween, hsum, hres⟩

lemma pruneVisit_measure (g : SGraph) (i : Nat) (hw : WfG g) :
    totalLen (pruneVisit g i).1 + totalDepth (pruneVisit g i).1
      ≤ totalLen g + totalDepth g := by
  rcases hb : (pruneVisit g i).2 with _ | _
  · rw [pruneVisit_false_eq g i hb]
  · obtain ⟨e, hmem, hinc1, honei, h1, h2, hbetween, hsum, hres⟩ :=
      pruneVisit_true_parts g i hb
    have hmemi : i ∈ nodeIds g := (endpoint_mem_of_inc_one hw hmem hinc1).1
    have hmemo : otherEnd i e ∈ nodeIds g := (endpoint_mem_of_inc_one hw hmem hinc1).2
    have hL : edgeLength g i (otherEnd i e) = e.elen := edgeLength_eq_of_between hbetween
    have hio : i ≠ otherEnd i e := fun hh => honei hh.symm
    have hnd1 : (nodeIds (setDepth g (otherEnd i e)
        (depthOf g i + edgeLength g i (otherEnd i e)))).Nodup := by
      rw [nodeIds_setDepth]; exact hw.1
    have hmemi1 : i ∈ nodeIds (setDepth g (otherEnd i e)
        (depthOf g i + edgeLength g i (otherEnd i e))) := by
      rw [nodeIds_setDepth]; exact hmemi
    have hlen : totalLen (removeNode (setDepth g (otherEnd i e)
        (depthOf g i + edgeLength g i (otherEnd i e))) i) = totalLen g - e.elen := by
      show ((g.edges.filter (fun f => !incident i f)).map SEdge.elen).sum
        = totalLen g - e.elen
      exact hsum
    have hdep1 : totalDepth (removeNode (setDepth g (otherEnd i e)
        (depthOf g i + edgeLength g i (otherEnd i e))) i)
        = totalDepth (setDepth g (otherEnd i e)
            (depthOf g i + edgeLength g i (otherEnd i e)))
          - depthOf (setDepth g (otherEnd i e)
              (depthOf g i + edgeLength g i (otherEnd i e))) i :=
      totalDepth_removeNode _ i hnd1 hmemi1
    have hdep2 : depthOf (setDepth g (otherEnd i e)
        (depthOf g i + edgeLength g i (otherEnd i e))) i = depthOf g i :=
      depthOf_setDepth_ne g (otherEnd i e) i _ hio
    have hdep3 : totalDepth (setDepth g (otherEnd i e)
        (depthOf g i + edgeLength g i (otherEnd i e)))
        = totalDepth g - depthOf g (otherEnd i e)
          + (depthOf g i + edgeLength g i (otherEnd i e)) :=
      totalDepth_setDepth g (otherEnd i e) _ hw.1 hmemo
    have hpos : 0 ≤ depthOf g (otherEnd i e) := depthOf_nonneg g hw.2.2 _
    rw [hres, hlen, hdep1, hdep2, hdep3, hL]
    linarith

lemma pruneVisit_wf (g : SGraph) (i : Nat) (hw : WfG g) :
    WfG (pruneVisit g i).1 := by
  rcases hb : (pruneVisit g i).2 with _ | _
  · rw [pruneVisit_false_eq g i hb]; exact hw
  · obtain ⟨e, hmem, hinc1, honei, h1, h2, hbetween, hsum, hres⟩ :=
      pruneVisit_true_parts g i hb
    have hV : 0 ≤ depthOf g i + edgeLength g i (otherEnd i e) := by
      have := depthOf_nonneg g hw.2.2 i
      have hL : edgeLength g i (otherEnd i e) = e.elen := edgeLength_eq_of_between hbetween
      have := (hw.2.1 e hmem).2.2
      linarith [hL ▸ (hw.2.1 e hmem).2.2]
    rw [hres]
    refine ⟨?_, ?_, ?_⟩
    · exact ((nodeIds_removeNode_sublist _ i).trans
        (by rw [nodeIds_setDepth])).nodup hw.1
    · intro f hf
      have hf' : f ∈ (setDepth g (otherEnd i e)
          (depthOf g i + edgeLength g i (otherEnd i e))).edges
          ∧ (!incident i f) = true := List.mem_filter.mp hf
      have hfg : f ∈ g.edges := hf'.1
      have hni : f.ea ≠ i ∧ f.eb ≠ i := by
        have : incident i f = false := by
          rcases hb2 : incident i f with _ | _
          · rfl
          · rw [hb2] at hf'; exact absurd hf'.2 (by simp)
        unfold incident at this
        simp at this
        exact ⟨fun hh => by simp [hh] at this, fun hh => by simp [hh] at this⟩
      obtain ⟨hea, heb, hlen0⟩ := hw.2.1 f hfg
      refine ⟨?_, ?_, hlen0⟩
      · exact mem_nodeIds_removeNode (by rw [nodeIds_setDepth]; exact hea) hni.1
      · exact mem_nodeIds_removeNode (by rw [nodeIds_setDepth]; exact heb) hni.2
    · intro n hn
      have hn1 : n ∈ (setDepth g (otherEnd i e)
          (depthOf g i + edgeLength g i (otherEnd i e))).nodes :=
        (List.mem_filter.mp hn).1
      rcases List.mem_map.mp hn1 with ⟨m, hm, rfl⟩
      by_cases hmo : m.nid = otherEnd i e
      · rw [if_pos hmo]; exact hV
      · rw [if_neg hmo]; exact hw.2.2 m hm

lemma pruneVisit_len_le (g : SGraph) (i : Nat) :
    (pruneVisit g i).1.nodes.length ≤ g.nodes.length := by
  rcases hb : (pruneVisit g i).2 with _ | _
  · rw [pruneVisit_false_eq g i hb]
  · obtain ⟨e, _, _, _, _, _, _, _, hres⟩ := pruneVisit_true_parts g i hb
    rw [hres]
    calc ((setDepth g (otherEnd i e) (depthOf g i + edgeLength g i (otherEnd i e))).nodes.filter
            (fun n => n.nid != i)).length
        ≤ (setDepth g (otherEnd i e)
            (depthOf g i + edgeLength g i (otherEnd i e))).nodes.length :=
          List.length_filter_le _ _
      _ = g.nodes.length := List.length_map _ _

lemma pruneVisit_true_len_lt (g : SGraph) (i : Nat) (hw : WfG g)
    (hb : (pruneVisit g i).2 = true) :
    (pruneVisit g i).1.nodes.length < g.nodes.length := by
  obtain ⟨e, hmem, hinc1, honei, h1, h2, hbetween, hsum, hres⟩ :=
    pruneVisit_true_parts g i hb
  have hmemi : i ∈ nodeIds g := (endpoint_mem_of_inc_one hw hmem hinc1).1
  have hmemi1 : i ∈ nodeIds (setDepth g (otherEnd i e)
      (depthOf g i + edgeLength g i (otherEnd i e))) := by
    rw [nodeIds_setDepth]; exact hmemi
  rcases List.mem_map.mp hmemi1 with ⟨n, hn, hni⟩
  rw [hres]
  calc ((setDepth g (otherEnd i e) (depthOf g i + edgeLength g i (otherEnd i e))).nodes.filter
          (fun n => n.nid != i)).length
      < (setDepth g (otherEnd i e)
          (depthOf g i + edgeLength g i (otherEnd i e))).nodes.length :=
        filter_length_lt _ ⟨n, hn, by simp [hni]⟩
    _ = g.nodes.length := List.length_map _ _

/-! ## Scans and the pruning fixed point -/

lemma pruneScanAux_len_le : ∀ (l : List Nat) (g : SGraph) (r : Bool),
    (pruneScanAux l g r).1.nodes.length ≤ g.nodes.length
  | [], g, r => le_refl _
  | i :: rest, g, r =>
    le_trans (pruneScanAux_len_le rest (pruneVisit g i).1 _) (pruneVisit_len_le g i)

lemma pruneScanAux_wf : ∀ (l : List Nat) (g : SGraph) (r : Bool), WfG g →
    WfG (pruneScanAux l g r).1
  | [], g, r, hw => hw
  | i :: rest, g, r, hw =>
    pruneScanAux_wf rest (pruneVisit g i).1 _ (pruneVisit_wf g i hw)

lemma pruneScanAux_measure : ∀ (l : List Nat) (g : SGraph) (r : Bool), WfG g →
    totalLen (pruneScanAux l g r).1 + totalDepth (pruneScanAux l g r).1
      ≤ totalLen g + totalDepth g
  | [], g, r, hw => le_refl _
  | i :: rest, g, r, hw =>
    le_trans (pruneScanAux_measure rest (pruneVisit g i).1 _ (pruneVisit_wf g i hw))
      (pruneVisit_measure g i hw)

lemma pruneScanAux_false : ∀ (l : List Nat) (g : SGraph) (r : Bool) (g' : SGraph),
    pruneScanAux l g r = (g', false) →
    r = false ∧ g' = g ∧ ∀ i ∈ l, (pruneVisit g i).2 = false
  | [], g, r, g', h => by
    injection h with h1 h2
    exact ⟨h2, h1.symm, by simp⟩
  | i :: rest, g, r, g', h => by
    obtain ⟨hor, hg', hrest⟩ := pruneScanAux_false rest (pruneVisit g i).1 _ g' h
    have hr : r = false := by
      rcases r with _ | _
      · rfl
      · rw [Bool.true_or] at hor; exact hor
    have hb : (pruneVisit g i).2 = false := by
      rcases hbb : (pruneVisit g i).2 with _ | _
      · rfl
      · rw [hr, hbb, Bool.false_or] at hor; exact hor
    have heq : (pruneVisit g i).1 = g := pruneVisit_false_eq g i hb
    refine ⟨hr, by rw [hg', heq], ?_⟩
    intro j hj
    rcases List.mem_cons.mp hj with rfl | hj'
    · exact hb
    · rw [← heq]; exact hrest j hj'

lemma pruneScanAux_true_lt : ∀ (l : List Nat) (g : SGraph) (g' : SGraph), WfG g →
    pruneScanAux l g false = (g', true) → g'.nodes.length < g.nodes.length
  | [], g, g', hw, h => by injection h with h1 h2; exact absurd h2.symm (by simp)
  | i :: rest, g, g', hw, h => by
    rcases hbb : (pruneVisit g i).2 with _ | _
    · have heq : (pruneVisit g i).1 = g := pruneVisit_false_eq g i hbb
      have h' : pruneScanAux rest g false = (g', true) := by
        have := h
        unfold pruneScanAux at this
        rw [hbb, heq] at this
        simpa using this
      exact pruneScanAux_true_lt rest g g' hw h'
    · have hlt : (pruneVisit g i).1.nodes.length < g.nodes.length :=
        pruneVisit_true_len_lt g i hw hbb
      have hle : g'.nodes.length ≤ (pruneVisit g i).1.nodes.length := by
        have h' : pruneScanAux rest (pruneVisit g i).1 true = (g', true) := by
          have := h
          unfold pruneScanAux at this
          rw [hbb] at this
          simpa using this
        have := pruneScanAux_len_le rest (pruneVisit g i).1 true
        rw [h'] at this
        exact this
      exact lt_of_le_of_lt hle hlt

lemma pruneScan_false {g g' : SGraph} (h : pruneScan g = (g', false)) : g' = g :=
  (pruneScanAux_false (nodeIds g) g false g' h).2.1

lemma pruneScan_wf (g : SGraph) (hw : WfG g) : WfG (pruneScan g).1 :=
  pruneScanAux_wf (nodeIds g) g false hw

lemma pruneScan_true_lt {g g' : SGraph} (hw : WfG g)
    (h : pruneScan g = (g', true)) : g'.nodes.length < g.nodes.length :=
  pruneScanAux_true_lt (nodeIds g) g g' hw h

lemma pruneLoop_wf : ∀ (fuel : Nat) (g : SGraph), WfG g → WfG (pruneLoop fuel g)
  | 0, g, hw => hw
  | fuel + 1, g, hw => by
    unfold pruneLoop
    rcases hb : (pruneScan g).2 with _ | _
    · rw [if_neg (by simp)]
      have heq : pruneScan g = ((pruneScan g).1, false) := by rw [← hb]
      rw [pruneScan_false heq]
      exact hw
    · rw [if_pos rfl]
      exact pruneLoop_wf fuel (pruneScan g).1 (pruneScan_wf g hw)

lemma pruneLoop_measure : ∀ (fuel : Nat) (g : SGraph), WfG g →
    totalLen (pruneLoop fuel g) + totalDepth (pruneLoop fuel g)
      ≤ totalLen g + totalDepth g
  | 0, g, hw => le_refl _
  | fuel + 1, g, hw => by
    unfold pruneLoop
    rcases hb : (pruneScan g).2 with _ | _
    · rw [if_neg (by simp)]
      have heq : pruneScan g = ((pruneScan g).1, false) := by rw [← hb]
      rw [pruneScan_false heq]
    · rw [if_pos rfl]
      exact le_trans
        (pruneLoop_measure fuel (pruneScan g).1 (pruneScan_wf g hw))
        (pruneScanAux_measure (nodeIds g) g false hw)

lemma pruneLoop_fix : ∀ (fuel : Nat) (g : SGraph), WfG g →
    g.nodes.length < fuel → pruneScan (pruneLoop fuel g) = (pruneLoop fuel g, false)
  | 0, g, _, hlt => absurd hlt (Nat.not_lt_zero _)
  | fuel + 1, g, hw, hlt => by
    unfold pruneLoop
    rcases hb : (pruneScan g).2 with _ | _
    · rw [if_neg (by simp)]
      have heq : pruneScan g = ((pruneScan g).1, false) := by rw [← hb]
      have hgg : (pruneScan g).1 = g := pruneScan_false heq
      rw [hgg]
      rw [hgg] at heq
      exact heq
    · rw [if_pos rfl]
      have heq : pruneScan g = ((pruneScan g).1, true) := by rw [← hb]
      have hlt2 : (pruneScan g).1.nodes.length < fuel :=
        lt_of_lt_of_le (pruneScan_true_lt hw heq) (Nat.lt_succ_iff.mp hlt)
      exact pruneLoop_fix fuel (pruneScan g).1 (pruneScan_wf g hw) hlt2

lemma pruneGraph_fix (g : SGraph) (hw : WfG g) :
    pruneScan (pruneGraph g) = (pruneGraph g, false) :=
  pruneLoop_fix (g.nodes.length + 1) g hw (Nat.lt_succ_self _)

lemma fixpoint_no_shallow_leaf {g : SGraph}
    (hfix : pruneScan g = (g, false)) :
    ∀ i ∈ nodeIds g, degree g i = 1 → 20 ≤ depthOf g i := by
  intro i hi h1
  have hall := (pruneScanAux_false (nodeIds g) g false g hfix).2.2
  by_contra hlt
  push_neg at hlt
  obtain ⟨e, hmem, hinc1, honei, hnbr, hbetween, hsum⟩ := degree_one_structure g i h1
  have : (pruneVisit g i).2 = true := by
    unfold pruneVisit
    rw [if_pos h1, if_pos hlt, hnbr]
  rw [hall i hi] at this
  exact Bool.noConfusion this

/-! ## Claims C4 and C5: the pruning loop -/

unseal Rat.add Rat.mul Rat.sub Rat.inv in
/-- C4 (corrected): conservation of length fails because the pruner assigns
`neighbor.depth = removed.depth + edge.length`, overwriting any depth the
neighbor had already accumulated.  On the star graph with spur lengths 3, 5
and 7 (all depths initially 0), pruning leaves a single bare node of depth 7,
so remaining length plus remaining depth is 7, not the original total edge
length 15. -/
theorem claim_C4_counterexample :
    ¬ (totalLen (pruneGraph starG) + totalDepth (pruneGraph starG)
        = totalLen starG) := by
  decide

/-- C4 (amended): for every well-formed skeleton graph, pruning can only lose
length: the total remaining edge length plus the total depth accumulated in
surviving nodes is at most the original total edge length plus the original
total depth (with equality exactly when no nonzero depth is ever overwritten). -/
theorem claim_C4_theorem (g : SGraph) (hw : WfG g) :
    totalLen (pruneGraph g) + totalDepth (pruneGraph g)
      ≤ totalLen g + totalDepth g :=
  pruneLoop_measure (g.nodes.length + 1) g hw

unseal Rat.add Rat.mul Rat.sub Rat.inv in
/-- C4 witness: the amended bound evaluated on the star graph. -/
theorem claim_C4_witness :
    totalLen (pruneGraph starG) + totalDepth (pruneGraph starG)
      ≤ totalLen starG + totalDepth starG :=
  claim_C4_theorem starG (by decide)

/-- C5 (confirmed): when the pruning loop of `polygon_skeleton` terminates,
every degree-1 node of the result has depth at least the cutoff 20 — a
degree-1 node with smaller depth would make the final scan remove it,
contradicting the fixed point. -/
theorem claim_C5 (g : SGraph) (hw : WfG g) :
    ∀ i ∈ nodeIds (pruneGraph g), degree (pruneGraph g) i = 1 →
      20 ≤ depthOf (pruneGraph g) i :=
  fixpoint_no_shallow_leaf (pruneGraph_fix g hw)

unseal Rat.add Rat.mul Rat.sub Rat.inv in
/-- C5 witness: on the 4-chain with 25-long edges, node 1 survives pruning at
degree 1 with depth 25 ≥ 20. -/
theorem claim_C5_witness : 20 ≤ depthOf (pruneGraph chainG) 1 :=
  claim_C5 chainG (by decide) 1 (by decide) (by decide)

/-! ## Structure of one route-extraction step -/

lemma routeStep_spec (fl : Bool) (s : RState) :
    routeStep fl s = .error (.indexError s) ∨ routeStep fl s = .ok s ∨
    ∃ leaves t p,
      selectLeaves fl s.clone = some leaves ∧
      firstPathTr fl s.clone (sortedPairs fl s.clone leaves) = some (t, p) ∧
      routeStep fl s = .ok ⟨s.orig, removeRouteEdges s.clone p, s.routes ++ [p]⟩ := by
  unfold routeStep
  rcases h1 : selectLeaves fl s.clone with _ | leaves
  · left; rfl
  · rcases h2 : firstPathTr fl s.clone (sortedPairs fl s.clone leaves) with _ | ⟨t, p⟩
    · right; left
      show routeStepGo fl s leaves = Except.ok s
      unfold routeStepGo
      rw [h2]
    · right; right
      refine ⟨leaves, t, p, rfl, h2, ?_⟩
      show routeStepGo fl s leaves = _
      unfold routeStepGo
      rw [h2]

lemma isEmpty_false_of_ne_nil {α : Type} {l : List α} (h : l ≠ []) :
    l.isEmpty = false := by
  rcases l with _ | ⟨x, xs⟩
  · exact absurd rfl h
  · rfl

/-! ## Claim C8: the caller's graph is never mutated -/

lemma loop_orig : ∀ (fuel : Nat) (fl : Bool) (s : RState),
    (resultState (graph_routes_loop fl fuel s)).orig = s.orig
  | 0, fl, s => rfl
  | fuel + 1, fl, s => by
    unfold graph_routes_loop
    by_cases he : s.clone.edges.isEmpty = true
    · rw [if_pos he]
      rfl
    · rw [if_neg he]
      rcases routeStep_spec fl s with h | h | ⟨leaves, t, p, _, _, h⟩ <;> rw [h]
      · rfl
      · exact loop_orig fuel fl s
      · exact loop_orig fuel fl _

/-- C8 (confirmed): `graph_routes` operates on `_graph = graph.copy()` only;
whatever way the run ends — normal return, timeout, or the index-error crash —
the caller's graph is exactly the value passed in. -/
theorem claim_C8 (g : SGraph) (fl : Bool) (fuel : Nat) :
    (resultState (graph_routes g fl fuel)).orig = g :=
  loop_orig fuel fl (initState g)

/-! ## Claim C10: the cycle fallback crashes when no degree-2 node exists -/

lemma selectLeaves_none (g : SGraph)
    (h1 : ∀ i ∈ nodeIds g, degree g i ≠ 1)
    (h2 : ∀ i ∈ nodeIds g, degree g i ≠ 2) :
    selectLeaves true g = none := by
  have hf1 : (nodeIds g).filter (fun i => degree g i == 1) = [] := by
    rw [List.filter_eq_nil_iff]
    intro i hi
    simp [h1 i hi]
  have hf2 : (nodeIds g).filter (fun i => degree g i == 2) = [] := by
    rw [List.filter_eq_nil_iff]
    intro i hi
    simp [h2 i hi]
  unfold selectLeaves leafCandidates
  rw [hf1, hf2]
  simp

/-- C10 (confirmed, implicit): with `find_longest` true, a working graph that
still has edges but has no degree-1 node and no degree-2 node (degree-3 nodes
are only added when there is exactly one leaf) drives `graph_routes` into the
unguarded `[index for ... if degree == 2][0]` on an empty list: the run ends
in an uncaught index error, not in a result or a declared error. -/
theorem claim_C10 (g : SGraph) (fuel : Nat)
    (he : g.edges ≠ [])
    (h1 : ∀ i ∈ nodeIds g, degree g i ≠ 1)
    (h2 : ∀ i ∈ nodeIds g, degree g i ≠ 2) :
    graph_routes g true (fuel + 1) = .error (.indexError (initState g)) := by
  have hstep : routeStep true (initState g) = .error (.indexError (initState g)) := by
    unfold routeStep
    have hsel : selectLeaves true (initState g).clone = none := selectLeaves_none g h1 h2
    rw [hsel]
  have hne : (initState g).clone.edges.isEmpty = false := isEmpty_false_of_ne_nil he
  unfold graph_routes graph_routes_loop
  rw [hne]
  rw [if_neg (by simp)]
  rw [hstep]

/-- C10 witness: the complete graph on 4 nodes (all degrees 3) crashes at
once. -/
theorem claim_C10_witness :
    graph_routes k4G true 1 = Except.error (RErr.indexError (initState k4G)) :=
  claim_C10 k4G 0 (by decide) (by decide) (by decide)

/-! ## Claim C2: when every pair yields no path, the loop never stops -/

lemma loop_no_progress (fl : Bool) (s : RState)
    (he : s.clone.edges ≠ []) (hs : routeStep fl s = .ok s) :
    ∀ fuel, graph_routes_loop fl fuel s = .error (.outOfFuel s)
  | 0 => rfl
  | fuel + 1 => by
    unfold graph_routes_loop
    rw [isEmpty_false_of_ne_nil he]
    rw [if_neg (by simp)]
    rw [hs]
    exact loop_no_progress fl s he hs fuel

/-- C2 (amended): when the working graph still has edges and every candidate
pair in the sorted list yields no path, the `for` loop falls through without
`break`, the `while True` loop re-enters with the state unchanged, and
`graph_routes` never returns the routes collected so far — it spins until the
SIGALRM (out of fuel in this model) aborts the call. -/
theorem claim_C2_theorem (fl : Bool) (s : RState) (leaves : List Nat)
    (he : s.clone.edges ≠ [])
    (hsel : selectLeaves fl s.clone = some leaves)
    (hnp : firstPathTr fl s.clone (sortedPairs fl s.clone leaves) = none) :
    ∀ fuel s₂, graph_routes_loop fl fuel s ≠ Except.ok s₂ := by
  have hs : routeStep fl s = .ok s := by
    unfold routeStep
    rw [hsel]
    show routeStepGo fl s leaves = Except.ok s
    unfold routeStepGo
    rw [hnp]
  intro fuel s₂ h
  rw [loop_no_progress fl s he hs fuel] at h
  exact Except.noConfusion h

unseal Rat.add Rat.mul Rat.sub Rat.inv in
lemma lollipop_step_fixed :
    routeStep true (initState lollipopG) = Except.ok (initState lollipopG) := by
  decide

/-- C2 counterexample: on two disjoint lollipops the two leaves lie in
different components, the single candidate pair has no path, and the
extraction loop never terminates normally for any time budget. -/
theorem claim_C2_counterexample : loopsForever lollipopG := by
  intro fuel s h
  have hloop := loop_no_progress true (initState lollipopG) (by decide)
    lollipop_step_fixed fuel
  unfold graph_routes at h
  rw [hloop] at h
  exact Except.noConfusion h

unseal Rat.add Rat.mul Rat.sub Rat.inv in
/-- C2 witness: the no-path hypotheses hold for the lollipop-pair graph, and
there the loop indeed does not return. -/
theorem claim_C2_witness :
    graph_routes_loop true 3 (initState lollipopG)
      ≠ Except.ok (initState lollipopG) :=
  claim_C2_theorem true (initState lollipopG) [0, 4] (by decide) (by decide)
    (by decide) 3 (initState lollipopG)

/-! ## Claim C3: what the overtime failure carries -/

/-- C3 (amended): when route extraction runs out of budget, the failure that
`multiline_centerline` surfaces is `_GraphRoutesOvertime(skeleton)` — it
carries the original input skeleton (unmutated, by the clone discipline), not
the extractor's working clone at the moment of timeout; the clone is discarded
with the aborted call. -/
theorem claim_C3_theorem (skeleton : SGraph) (fuel : Nat) (s : RState)
    (h : graph_routes skeleton true fuel = .error (.outOfFuel s)) :
    multiline_centerline_extract skeleton fuel
        = CenterlineOutcome.overtime ⟨skeleton⟩ ∧ s.orig = skeleton := by
  constructor
  · unfold multiline_centerline_extract
    rw [h]
  · have horig := loop_orig fuel true (initState skeleton)
    unfold graph_routes at h
    rw [h] at horig
    exact horig

unseal Rat.add Rat.mul Rat.sub Rat.inv in
/-- C3 counterexample: on the 3-path with budget 1 the run times out after
consuming both edges; the clone at the moment of timeout is edgeless, yet the
surfaced failure carries the full original graph — a different value. -/
theorem claim_C3_counterexample :
    graph_routes pathG true 1
        = Except.error (RErr.outOfFuel ⟨pathG, pathGstripped, [[0, 1, 2]]⟩) ∧
      multiline_centerline_extract pathG 1 = CenterlineOutcome.overtime ⟨pathG⟩ ∧
      pathG ≠ pathGstripped := by
  exact ⟨by decide, by decide, by decide⟩

unseal Rat.add Rat.mul Rat.sub Rat.inv in
/-- C3 witness: the amended statement applied to the concrete timed-out run. -/
theorem claim_C3_witness :
    multiline_centerline_extract pathG 1 = CenterlineOutcome.overtime ⟨pathG⟩ ∧
      (RState.mk pathG pathGstripped [[0, 1, 2]]).orig = pathG :=
  claim_C3_theorem pathG 1 ⟨pathG, pathGstripped, [[0, 1, 2]]⟩ (by decide)

/-! ## Claim C9: a zero time budget -/

lemma time_limit_zero_iff (g : SGraph) : time_limit g = 0 ↔ g.nodes.length = 0 := by
  unfold time_limit
  constructor
  · intro h
    by_contra hn
    have hq : (0 : ℚ) < (1 / 50 : ℚ) * (g.nodes.length : ℚ) := by
      have h1 : 1 ≤ g.nodes.length := Nat.pos_of_ne_zero hn
      have h2 : (1 : ℚ) ≤ (g.nodes.length : ℚ) := by exact_mod_cast h1
      nlinarith
    have hc : 0 < ⌈(1 / 50 : ℚ) * (g.nodes.length : ℚ)⌉ := Int.ceil_pos.mpr hq
    omega
  · intro h
    rw [h]
    simp

/-- C9 (confirmed): `ceil(0.02 * node_count)` is zero only for the empty
graph, and then the search completes instantaneously — the very first loop
iteration finds no edges and returns no routes, so the "unless the search
completes instantaneously" escape of the claim is what actually happens (the
code's `signal.alarm(0)` disables the alarm rather than firing it, but no
unbounded work remains to be bounded). -/
theorem claim_C9 (g : SGraph) (hw : WfG g) (h0 : time_limit g = 0) :
    g.nodes = [] ∧ graph_routes g true 1 = Except.ok (initState g) ∧
      (initState g).routes = [] := by
  have hn : g.nodes.length = 0 := (time_limit_zero_iff g).mp h0
  have hnodes : g.nodes = [] := List.length_eq_zero.mp hn
  have hedges : g.edges = [] := by
    rcases hg : g.edges with _ | ⟨e, es⟩
    · rfl
    · obtain ⟨hea, _, _⟩ := hw.2.1 e (by rw [hg]; simp)
      unfold nodeIds at hea
      rw [hnodes] at hea
      simp at hea
  refine ⟨hnodes, ?_, rfl⟩
  unfold graph_routes graph_routes_loop
  have hemp : (initState g).clone.edges.isEmpty = true := by
    show g.edges.isEmpty = true
    rw [hedges]
    rfl
  rw [if_pos hemp]

/-- C9 witness: the empty graph. -/
theorem claim_C9_witness :
    emptyG.nodes = [] ∧ graph_routes emptyG true 1 = Except.ok (initState emptyG) ∧
      (initState emptyG).routes = [] :=
  claim_C9 emptyG (by decide) ((time_limit_zero_iff emptyG).mpr rfl)

/-! ## Claim C7: what the Voronoi engine failure carries -/

/-- C7 (amended): when the external Voronoi engine exits with nonzero status,
skeleton building fails with `_QHullFailure` whose only payload is the message
string `'Failed with code %s' % returncode` — the triggering polygon and the
density are not attached to the exception (the caller logs them to a file
separately). -/
theorem claim_C7_theorem (polygon : Polygon) (density : ℚ) (res : VoronoiResult)
    (h : res.returncode ≠ 0) :
    qvoronoi_check polygon density res
      = Except.error ⟨"Failed with code " ++ toString res.returncode⟩ := by
  unfold qvoronoi_check
  rw [if_pos h]

/-- C7 counterexample: two runs over different polygons and densities with the
same failing engine status produce the very same exception value — so the
exception cannot be carrying the polygon or the density — and that value is
just the message string. -/
theorem claim_C7_counterexample :
    qvoronoi_check polyA 10 vorFail = qvoronoi_check polyB 20 vorFail ∧
      polyA ≠ polyB ∧ (10 : ℚ) ≠ 20 ∧
      qvoronoi_check polyA 10 vorFail = Except.error ⟨"Failed with code 1"⟩ := by
  refine ⟨rfl, by decide, by norm_num, rfl⟩

/-- C7 witness: the amended statement applied to a failing run. -/
theorem claim_C7_witness :
    qvoronoi_check polyA 10 vorFail
      = Except.error ⟨"Failed with code " ++ toString (1 : Int)⟩ :=
  claim_C7_theorem polyA 10 vorFail (by decide)

/-! ## Paths returned by the A* search are paths of the working graph -/

lemma neighbors_isEdge {g : SGraph} {cur nb : Nat} (h : nb ∈ neighbors g cur) :
    isEdgeB g cur nb = true := by
  unfold neighbors at h
  rcases List.mem_filterMap.mp h with ⟨e, hmem, hcase⟩
  unfold isEdgeB
  rw [List.any_eq_true]
  refine ⟨e, hmem, ?_⟩
  by_cases ha : e.ea = cur
  · rw [if_pos ha] at hcase
    injection hcase with hb
    simp [ha, hb]
  · rw [if_neg ha] at hcase
    by_cases hb : e.eb = cur
    · rw [if_pos hb] at hcase
      injection hcase with ha2
      simp [ha2, hb]
    · rw [if_neg hb] at hcase
      exact Option.noConfusion hcase

lemma pathsFrom_shape {g : SGraph} : ∀ (fuel : Nat) (cur target : Nat)
    (visited : List Nat) (p : List Nat), p ∈ pathsFrom g fuel cur target visited →
    (∃ q, p = cur :: q) ∧ ∀ a ∈ routeEdgePairs p, isEdgeB g a.1 a.2 = true
  | 0, cur, target, visited, p, h => by simp [pathsFrom] at h
  | fuel + 1, cur, target, visited, p, h => by
    unfold pathsFrom at h
    by_cases hct : cur = target
    · rw [if_pos hct] at h
      rcases List.mem_singleton.mp h with rfl
      exact ⟨⟨[], rfl⟩, by simp [routeEdgePairs]⟩
    · rw [if_neg hct] at h
      rcases List.mem_flatMap.mp h with ⟨nb, hnb, hp⟩
      rcases List.mem_map.mp hp with ⟨q, hq, rfl⟩
      obtain ⟨⟨q', rfl⟩, hqv⟩ := pathsFrom_shape fuel nb target (nb :: visited) q hq
      refine ⟨⟨nb :: q', rfl⟩, ?_⟩
      intro a ha
      have hnb' : nb ∈ neighbors g cur := (List.mem_filter.mp hnb).1
      rcases List.mem_cons.mp ha with rfl | ha'
      · exact neighbors_isEdge hnb'
      · exact hqv a ha'

lemma foldl_pick_mem {α : Type} (f : α → ℚ) :
    ∀ (xs : List α) (acc : α),
      xs.foldl (fun best y => if f y < f best then y else best) acc ∈ acc :: xs
  | [], acc => by simp
  | y :: ys, acc => by
    have h := foldl_pick_mem f ys (if f y < f acc then y else acc)
    rcases List.mem_cons.mp h with heq | hmem
    · rw [List.foldl_cons, heq]
      by_cases hc : f y < f acc
      · rw [if_pos hc]; simp
      · rw [if_neg hc]; simp
    · rw [List.foldl_cons]
      rcases List.mem_cons.mp (List.mem_cons.mpr (Or.inr hmem) :
          ys.foldl (fun best y => if f y < f best then y else best)
            (if f y < f acc then y else acc) ∈ (if f y < f acc then y else acc) :: ys)
        with heq2 | hmem2
      · rw [heq2]
        by_cases hc : f y < f acc
        · rw [if_pos hc]; simp
        · rw [if_neg hc]; simp
      · simp [hmem2]

lemma pickFirstMinBy_mem {α : Type} {f : α → ℚ} {l : List α} {x : α}
    (h : pickFirstMinBy f l = some x) : x ∈ l := by
  rcases l with _ | ⟨y, ys⟩
  · exact Option.noConfusion h
  · injection h with hx
    rw [← hx]
    exact foldl_pick_mem f ys y

lemma astar_path_valid {useLen : Bool} {g : SGraph} {v w : Nat} {p : List Nat}
    (h : astar_path useLen g v w = some p) :
    ∀ a ∈ routeEdgePairs p, isEdgeB g a.1 a.2 = true :=
  (pathsFrom_shape g.nodes.length v w [v] p (pickFirstMinBy_mem h)).2

lemma firstPathTr_astar {useLen : Bool} {g : SGraph} :
    ∀ {l : List (ℚ × Nat × Nat)} {t : ℚ × Nat × Nat} {p : List Nat},
      firstPathTr useLen g l = some (t, p) →
      astar_path useLen g t.2.1 t.2.2 = some p := by
  intro l
  induction l with
  | nil => intro t p h; exact Option.noConfusion h
  | cons u rest ih =>
    intro t p h
    unfold firstPathTr at h
    rcases ha : astar_path useLen g u.2.1 u.2.2 with _ | q
    · rw [ha] at h
      exact ih h
    · rw [ha] at h
      injection h with h2
      injection h2 with h3 h4
      rw [← h3, ← h4]
      exact ha

/-! ## Removing a route's edges removes them for good -/

lemma isEdgeB_symm (g : SGraph) (v w : Nat) : isEdgeB g v w = isEdgeB g w v := by
  unfold isEdgeB
  induction g.edges with
  | nil => rfl
  | cons e rest ih =>
    rw [List.any_cons, List.any_cons, ih]
    rcases h1 : (e.ea == v && e.eb == w) with _ | _ <;>
      rcases h2 : (e.ea == w && e.eb == v) with _ | _ <;>
        simp [h1, h2]

lemma sameUedge_transfer {g : SGraph} {a b : Nat × Nat} (h : sameUedge a b) :
    isEdgeB g a.1 a.2 = isEdgeB g b.1 b.2 := by
  rcases h with rfl | ⟨h1, h2⟩
  · rfl
  · rw [h1, h2, isEdgeB_symm]

lemma isEdgeB_removeEdgePair_mono {g : SGraph} {v w x y : Nat}
    (h : isEdgeB (removeEdgePair g v w) x y = true) : isEdgeB g x y = true := by
  unfold isEdgeB at h ⊢
  rcases List.any_eq_true.mp h with ⟨e, hmem, hpred⟩
  exact List.any_eq_true.mpr ⟨e, (List.mem_filter.mp hmem).1, hpred⟩

lemma isEdgeB_removeEdgePair_gone (g : SGraph) (v w : Nat) :
    isEdgeB (removeEdgePair g v w) v w = false := by
  rcases hb : isEdgeB (removeEdgePair g v w) v w with _ | _
  · rfl
  · exfalso
    rcases List.any_eq_true.mp hb with ⟨e, hmem, hpred⟩
    have hkeep := (List.mem_filter.mp hmem).2
    rw [hpred] at hkeep
    exact Bool.noConfusion hkeep

lemma foldl_remove_mono : ∀ (ps : List (Nat × Nat)) (g : SGraph) (x y : Nat),
    isEdgeB (ps.foldl (fun h vw => removeEdgePair h vw.1 vw.2) g) x y = true →
    isEdgeB g x y = true
  | [], g, x, y, h => h
  | vw :: rest, g, x, y, h =>
    isEdgeB_removeEdgePair_mono (foldl_remove_mono rest _ x y h)

lemma foldl_remove_gone : ∀ (ps : List (Nat × Nat)) (g : SGraph) (a : Nat × Nat),
    a ∈ ps → isEdgeB (ps.foldl (fun h vw => removeEdgePair h vw.1 vw.2) g) a.1 a.2 = false
  | [], g, a, ha => by simp at ha
  | vw :: rest, g, a, ha => by
    rcases List.mem_cons.mp ha with rfl | ha'
    · rw [List.foldl_cons]
      rcases hb : isEdgeB (rest.foldl (fun h vw => removeEdgePair h vw.1 vw.2)
          (removeEdgePair g a.1 a.2)) a.1 a.2 with _ | _
      · exact hb
      · have := foldl_remove_mono rest (removeEdgePair g a.1 a.2) a.1 a.2 hb
        rw [isEdgeB_removeEdgePair_gone] at this
        exact Bool.noConfusion this
    · exact foldl_remove_gone rest _ a ha'

lemma removeRouteEdges_mono {g : SGraph} {p : List Nat} {x y : Nat}
    (h : isEdgeB (removeRouteEdges g p) x y = true) : isEdgeB g x y = true :=
  foldl_remove_mono (p.zip p.tail) g x y h

lemma removeRouteEdges_gone {g : SGraph} {p : List Nat} {a : Nat × Nat}
    (ha : a ∈ routeEdgePairs p) :
    isEdgeB (removeRouteEdges g p) a.1 a.2 = false :=
  foldl_remove_gone (p.zip p.tail) g a ha

/-! ## Claim C1: routes are pairwise edge-disjoint -/

lemma routeStep_inv {fl : Bool} {s s' : RState} (hinv : RInv s)
    (h : routeStep fl s = Except.ok s') : RInv s' := by
  rcases routeStep_spec fl s with hc | hc | ⟨leaves, t, p, hsel, hfp, hc⟩
  · rw [hc] at h
    exact Except.noConfusion h
  · rw [hc] at h
    injection h with h2
    rw [← h2]
    exact hinv
  · rw [hc] at h
    injection h with h2
    rw [← h2]
    have hvalid : ∀ a ∈ routeEdgePairs p, isEdgeB s.clone a.1 a.2 = true :=
      astar_path_valid (firstPathTr_astar hfp)
    constructor
    · -- pairwise disjointness of routes ++ [p]
      rw [RoutesDisjoint, List.pairwise_append]
      refine ⟨hinv.1, List.pairwise_singleton _ _, ?_⟩
      intro r hr p' hp'
      rcases List.mem_singleton.mp hp' with rfl
      intro a ha b hb hsame
      have h1 : isEdgeB s.clone a.1 a.2 = false := hinv.2 r hr a ha
      have h2 : isEdgeB s.clone b.1 b.2 = true := hvalid b hb
      rw [sameUedge_transfer hsame, h2] at h1
      exact Bool.noConfusion h1
    · -- all recorded edges are gone from the new clone
      intro r hr a ha
      rcases List.mem_append.mp hr with hr' | hr'
      · rcases hb : isEdgeB (removeRouteEdges s.clone p) a.1 a.2 with _ | _
        · rfl
        · have := removeRouteEdges_mono hb
          rw [hinv.2 r hr' a ha] at this
          exact Bool.noConfusion this
      · rcases List.mem_singleton.mp hr' with rfl
        exact removeRouteEdges_gone ha

lemma loop_inv : ∀ (fuel : Nat) (fl : Bool) (s : RState), RInv s →
    RInv (resultState (graph_routes_loop fl fuel s))
  | 0, fl, s, hinv => hinv
  | fuel + 1, fl, s, hinv => by
    unfold graph_routes_loop
    by_cases he : s.clone.edges.isEmpty = true
    · rw [if_pos he]
      exact hinv
    · rw [if_neg he]
      rcases hstep : routeStep fl s with e | s'
      · rcases routeStep_spec fl s with hc | hc | ⟨l2, t2, p2, _, _, hc⟩ <;> rw [hc] at hstep
        · injection hstep with h2
          rw [← h2]
          exact hinv
        · exact Except.noConfusion hstep
        · exact Except.noConfusion hstep
      · exact loop_inv fuel fl s' (routeStep_inv hinv hstep)

/-- C1 (confirmed): however a `graph_routes` run ends — normal return, timeout
or crash — the routes it recorded are pairwise edge-disjoint: each recorded
path's edges are present in the working clone when recorded and are removed
immediately after, and removal is never undone, so no later path can traverse
them again. -/
theorem claim_C1 (g : SGraph) (fl : Bool) (fuel : Nat) :
    RoutesDisjoint (resultState (graph_routes g fl fuel)).routes :=
  (loop_inv fuel fl (initState g)
    ⟨List.Pairwise.nil, fun r hr => absurd hr (List.not_mem_nil r)⟩).1

/-! ## The candidate-pair sort -/

lemma tripLe_iff (a b : ℚ × Nat × Nat) :
    tripLe a b = true ↔
      (a.1 < b.1 ∨ (a.1 = b.1 ∧ (a.2.1 < b.2.1 ∨ (a.2.1 = b.2.1 ∧ a.2.2 ≤ b.2.2)))) := by
  simp [tripLe]

lemma tripLe_total (a b : ℚ × Nat × Nat) : tripLe a b = true ∨ tripLe b a = true := by
  rw [tripLe_iff, tripLe_iff]
  rcases lt_trichotomy a.1 b.1 with h | h | h
  · exact Or.inl (Or.inl h)
  · rcases lt_trichotomy a.2.1 b.2.1 with h2 | h2 | h2
    · exact Or.inl (Or.inr ⟨h, Or.inl h2⟩)
    · rcases le_total a.2.2 b.2.2 with h3 | h3
      · exact Or.inl (Or.inr ⟨h, Or.inr ⟨h2, h3⟩⟩)
      · exact Or.inr (Or.inr ⟨h.symm, Or.inr ⟨h2.symm, h3⟩⟩)
    · exact Or.inr (Or.inr ⟨h.symm, Or.inl h2⟩)
  · exact Or.inr (Or.inl h)

lemma tripLe_trans (a b c : ℚ × Nat × Nat)
    (h1 : tripLe a b = true) (h2 : tripLe b c = true) : tripLe a c = true := by
  rw [tripLe_iff] at h1 h2 ⊢
  rcases h1 with h1 | ⟨e1, h1⟩
  · rcases h2 with h2 | ⟨e2, _⟩
    · exact Or.inl (lt_trans h1 h2)
    · exact Or.inl (e2 ▸ h1)
  · rcases h2 with h2 | ⟨e2, h2⟩
    · exact Or.inl (e1 ▸ h2)
    · refine Or.inr ⟨e1.trans e2, ?_⟩
      rcases h1 with h1 | ⟨f1, h1⟩
      · rcases h2 with h2 | ⟨f2, _⟩
        · exact Or.inl (lt_trans h1 h2)
        · exact Or.inl (f2 ▸ h1)
      · rcases h2 with h2 | ⟨f2, h2⟩
        · exact Or.inl (f1 ▸ h2)
        · exact Or.inr ⟨f1.trans f2, le_trans h1 h2⟩

lemma tripGe_total (a b : ℚ × Nat × Nat) : tripGe a b = true ∨ tripGe b a = true :=
  (tripLe_total b a).elim Or.inl Or.inr

lemma tripGe_trans (a b c : ℚ × Nat × Nat)
    (h1 : tripGe a b = true) (h2 : tripGe b c = true) : tripGe a c = true :=
  tripLe_trans c b a h2 h1

lemma mem_insertBy {α : Type} (le : α → α → Bool) (x a : α) :
    ∀ (l : List α), a ∈ insertBy le x l ↔ a = x ∨ a ∈ l
  | [] => by simp [insertBy]
  | y :: ys => by
    unfold insertBy
    by_cases h : le x y = true
    · rw [if_pos h]
      simp
    · rw [if_neg h]
      rw [List.mem_cons, mem_insertBy le x a ys, List.mem_cons]
      tauto

lemma pairwise_insertBy {α : Type} (le : α → α → Bool)
    (htot : ∀ a b, le a b = true ∨ le b a = true)
    (htrans : ∀ a b c, le a b = true → le b c = true → le a c = true) (x : α) :
    ∀ (l : List α), l.Pairwise (fun a b => le a b = true) →
      (insertBy le x l).Pairwise (fun a b => le a b = true)
  | [], _ => by simp [insertBy]
  | y :: ys, h => by
    unfold insertBy
    rcases List.pairwise_cons.mp h with ⟨hy, hys⟩
    by_cases hxy : le x y = true
    · rw [if_pos hxy]
      refine List.pairwise_cons.mpr ⟨?_, h⟩
      intro z hz
      rcases List.mem_cons.mp hz with rfl | hz'
      · exact hxy
      · exact htrans x y z hxy (hy z hz')
    · rw [if_neg hxy]
      refine List.pairwise_cons.mpr
        ⟨?_, pairwise_insertBy le htot htrans x ys hys⟩
      intro z hz
      rcases (mem_insertBy le x z ys).mp hz with rfl | hz'
      · rcases htot z y with h1 | h1
        · exact absurd h1 hxy
        · exact h1
      · exact hy z hz'

lemma pairwise_sortBy {α : Type} (le : α → α → Bool)
    (htot : ∀ a b, le a b = true ∨ le b a = true)
    (htrans : ∀ a b c, le a b = true → le b c = true → le a c = true) :
    ∀ (l : List α), (sortBy le l).Pairwise (fun a b => le a b = true)
  | [] => List.Pairwise.nil
  | x :: xs =>
    pairwise_insertBy le htot htrans x (sortBy le xs)
      (pairwise_sortBy le htot htrans xs)

lemma mem_sortBy {α : Type} (le : α → α → Bool) (a : α) :
    ∀ (l : List α), a ∈ sortBy le l ↔ a ∈ l
  | [] => Iff.rfl
  | x :: xs => by
    unfold sortBy
    rw [mem_insertBy le x a (sortBy le xs), mem_sortBy le a xs, List.mem_cons]

lemma firstPathTr_decomp {useLen : Bool} {g : SGraph} :
    ∀ {l : List (ℚ × Nat × Nat)} {t : ℚ × Nat × Nat} {p : List Nat},
      firstPathTr useLen g l = some (t, p) →
      ∃ pre post, l = pre ++ t :: post ∧
        ∀ u ∈ pre, astar_path useLen g u.2.1 u.2.2 = none := by
  intro l
  induction l with
  | nil => intro t p h; exact Option.noConfusion h
  | cons u rest ih =>
    intro t p h
    unfold firstPathTr at h
    rcases ha : astar_path useLen g u.2.1 u.2.2 with _ | q
    · rw [ha] at h
      obtain ⟨pre, post, hsplit, hfail⟩ := ih h
      refine ⟨u :: pre, post, by rw [hsplit]; rfl, ?_⟩
      intro v hv
      rcases List.mem_cons.mp hv with rfl | hv'
      · exact ha
      · exact hfail v hv'
    · rw [ha] at h
      injection h with h2
      injection h2 with h3 h4
      exact ⟨[], rest, by rw [← h3]; rfl, fun v hv => absurd hv (List.not_mem_nil v)⟩

/-! ## Claim C6: the order routes come out in -/

/-- C6 (amended): within one iteration, candidate pairs are tried in
descending order of straight-line endpoint distance, so the successful pair
maximizes that distance over all candidate pairs that admit a path — but the
route recorded is the minimum-weight path between those endpoints, so the
lengths of the emitted routes themselves need not be descending. -/
theorem claim_C6_theorem (g : SGraph) (leaves : List Nat) (t : ℚ × Nat × Nat)
    (p : List Nat)
    (h : firstPathTr true g (sortedPairs true g leaves) = some (t, p)) :
    astar_path true g t.2.1 t.2.2 = some p ∧
      ∀ u ∈ pairDists g leaves, astar_path true g u.2.1 u.2.2 ≠ none → u.1 ≤ t.1 := by
  refine ⟨firstPathTr_astar h, ?_⟩
  intro u hu hnn
  have hsorted : (sortedPairs true g leaves).Pairwise (fun a b => tripGe a b = true) := by
    unfold sortedPairs
    rw [if_pos rfl]
    exact pairwise_sortBy tripGe tripGe_total tripGe_trans _
  obtain ⟨pre, post, hsplit, hfail⟩ := firstPathTr_decomp h
  have humem : u ∈ sortedPairs true g leaves := by
    unfold sortedPairs
    rw [if_pos rfl]
    exact (mem_sortBy tripGe u _).mpr hu
  rw [hsplit] at humem hsorted
  rcases List.mem_append.mp humem with hpre | hrest
  · exact absurd (hfail u hpre) hnn
  · rcases List.mem_cons.mp hrest with rfl | hpost
    · exact le_refl _
    · have hge : tripGe t u = true :=
        (List.pairwise_cons.mp (List.pairwise_append.mp hsorted).2.1).1 u hpost
      have := tripLe_iff u t |>.mp hge
      rcases this with h1 | ⟨h1, _⟩
      · exact le_of_lt h1
      · exact le_of_eq h1

unseal Rat.add Rat.mul Rat.sub Rat.inv in
/-- C6 counterexample: on a graph of two components — a straight 0–1–2 path of
length 6 with endpoints 6 apart, and a bent 3–4–5 path of length 13 with
endpoints only 5 apart — `find_longest` extraction emits the length-6 route
first and the length-13 route second: the emitted order is not descending by
route length.  (Each edge's `length` attribute is exactly its endpoints'
Euclidean distance, as in a real skeleton graph.) -/
theorem claim_C6_counterexample :
    (resultState (graph_routes xG true 3)).routes = [[0, 1, 2], [3, 4, 5]] ∧
      pathWeight true xG [0, 1, 2] < pathWeight true xG [3, 4, 5] ∧
      (∀ e ∈ xG.edges,
        e.elen * e.elen = dist2 (pointOf xG e.ea) (pointOf xG e.eb) ∧ 0 ≤ e.elen) := by
  exact ⟨by decide, by decide, by decide⟩

unseal Rat.add Rat.mul Rat.sub Rat.inv in
/-- C6 witness: in the first iteration on that graph the successful pair is
(0, 2) at squared distance 36, maximal among pairs that admit a path. -/
theorem claim_C6_witness :
    astar_path true xG 0 2 = some [0, 1, 2] ∧
      ∀ u ∈ pairDists xG [0, 2, 3, 5],
        astar_path true xG u.2.1 u.2.2 ≠ none → u.1 ≤ (36 : ℚ) :=
  claim_C6_theorem xG [0, 2, 3, 5] (36, 0, 2) [0, 1, 2] (by decide)

end Skeletron

